import Mathlib

/-!
Verification development for the gored in-memory RESP key-value cache.

Go strings are byte sequences; we model them as `List Nat` (each element a
byte value).  Machine integers are modelled as `Int`/`Nat` with explicit
range conditions where the Go code's behaviour depends on them.

The repository contains, besides the operative files, duplicated draft
versions of the RESP codec.  The primary decoder (resp.go, first part) and
the operative encoder (writer.go) are modelled in namespace `Resp` and as
`Marshal`; the draft decoder/encoder (resp.go, second part) is modelled in
namespace `Draft`.  The sharded LRU cache and the command dispatcher
(resp.go, third part) are modelled as `LRUCache` and `processCommand`.
-/

/-- Byte list of an ASCII string literal. -/
def bs (s : String) : List Nat := s.toList.map Char.toNat

/-- Big-endian decimal digits of a natural number, with explicit fuel so the
definition is structural and evaluates by kernel reduction.  For `n = 0` the
result is `[]`; `natDigs` handles the zero case. -/
def natDigitsAux : Nat → Nat → List Nat
  | 0, _ => []
  | fuel + 1, n => if n = 0 then [] else natDigitsAux fuel (n / 10) ++ [n % 10]

/-- Big-endian decimal digits of a positive natural number. -/
def natDigs (n : Nat) : List Nat := natDigitsAux n n

/-- Decimal digit characters of a natural number, as bytes. -/
def natChars (m : Nat) : List Nat :=
  if m = 0 then [48] else (natDigs m).map (· + 48)

/-- Model of Go `strconv.Itoa` on an integer: optional leading minus sign,
then the decimal digits, as bytes. -/
def itoa (n : Int) : List Nat :=
  if n < 0 then 45 :: natChars n.natAbs else natChars n.toNat

/-- Parse a nonempty all-digit byte list as a natural number
(the digit loop inside Go `strconv.ParseInt`). -/
def parseDigits (l : List Nat) : Option Nat :=
  if l.isEmpty then none
  else if l.all (fun d => decide (48 ≤ d ∧ d ≤ 57)) then
    some (l.foldl (fun a d => a * 10 + (d - 48)) 0)
  else none

/-- Signed 64-bit range check of `strconv.ParseInt(_, 10, 64)`. -/
def int64InRange (v : Int) : Bool := decide (-(2 ^ 63) ≤ v ∧ v ≤ 2 ^ 63 - 1)

/-- Application of the parsed sign to the parsed magnitude. -/
def atoiSign (neg : Bool) (m : Nat) : Int := if neg then -(m : Int) else (m : Int)

/-- Digit-and-range phase of `strconv.ParseInt` after the sign has been
consumed. -/
def atoiFin (neg : Bool) (digs : List Nat) : Option Int :=
  match parseDigits digs with
  | none => none
  | some m => if int64InRange (atoiSign neg m) then some (atoiSign neg m) else none

/-- Model of Go `strconv.Atoi` / `strconv.ParseInt(s, 10, 64)` on a byte
list: optional single leading sign, a nonempty run of decimal digits, and a
signed 64-bit range check.  Any other input is an error (`none`). -/
def goAtoi : List Nat → Option Int
  | [] => none
  | c :: rest =>
    if c = 45 then atoiFin true rest
    else if c = 43 then atoiFin false rest
    else atoiFin false (c :: rest)

/-- ASCII uppercasing of one byte (model of `strings.ToUpper` restricted to
ASCII input, which is all the dispatcher compares against). -/
def upperByte (b : Nat) : Nat := if 97 ≤ b ∧ b ≤ 122 then b - 32 else b

/-- ASCII uppercasing of a byte string. -/
def upperBytes (l : List Nat) : List Nat := l.map upperByte

/-- Model of Go `strings.HasPrefix`: `startsWith p l` is true when `p` is an
initial segment of `l`. -/
def startsWith : List Nat → List Nat → Bool
  | [], _ => true
  | _ :: _, [] => false
  | p :: ps, b :: rest => decide (p = b) && startsWith ps rest

/-- Model of the Go struct `Value` from resp.go: a product of a type tag and
one field per RESP payload kind.  Equality is structural, matching
`reflect.DeepEqual` on the Go struct (nil and empty slices identified). -/
inductive Value : Type where
  | mk (typ : String) (str : List Nat) (num : Int) (bulk : List Nat) (array : List Value)

/-- Field accessor for the `typ` tag. -/
def Value.typ : Value → String
  | .mk t _ _ _ _ => t

/-- Field accessor for the simple-string / error payload. -/
def Value.str : Value → List Nat
  | .mk _ s _ _ _ => s

/-- Field accessor for the integer payload. -/
def Value.num : Value → Int
  | .mk _ _ n _ _ => n

/-- Field accessor for the bulk-string payload. -/
def Value.bulk : Value → List Nat
  | .mk _ _ _ b _ => b

/-- Field accessor for the array payload. -/
def Value.array : Value → List Value
  | .mk _ _ _ _ a => a

mutual

/-- Decidable structural equality on `Value` (mutual with lists). -/
def decEqV : (a b : Value) → Decidable (a = b)
  | .mk t1 s1 n1 b1 a1, .mk t2 s2 n2 b2 a2 =>
    if h1 : t1 = t2 then
      if h2 : s1 = s2 then
        if h3 : n1 = n2 then
          if h4 : b1 = b2 then
            match decEqL a1 a2 with
            | isTrue h5 => isTrue (by rw [h1, h2, h3, h4, h5])
            | isFalse h5 => isFalse (by simp only [Value.mk.injEq]; tauto)
          else isFalse (by simp only [Value.mk.injEq]; tauto)
        else isFalse (by simp only [Value.mk.injEq]; tauto)
      else isFalse (by simp only [Value.mk.injEq]; tauto)
    else isFalse (by simp only [Value.mk.injEq]; tauto)

/-- Decidable structural equality on lists of `Value`. -/
def decEqL : (a b : List Value) → Decidable (a = b)
  | [], [] => isTrue rfl
  | [], _ :: _ => isFalse (by simp)
  | _ :: _, [] => isFalse (by simp)
  | x :: xs, y :: ys =>
    match decEqV x y, decEqL xs ys with
    | isTrue h1, isTrue h2 => isTrue (by rw [h1, h2])
    | isFalse h1, _ => isFalse (by simp only [List.cons.injEq]; tauto)
    | _, isFalse h2 => isFalse (by simp only [List.cons.injEq]; tauto)

end

instance : DecidableEq Value := decEqV

/-- Go literal `Value{typ: "string", str: s}`. -/
def strV (s : List Nat) : Value := .mk "string" s 0 [] []

/-- Go literal `Value{typ: "error", str: s}`. -/
def errV (s : List Nat) : Value := .mk "error" s 0 [] []

/-- Go literal `Value{typ: "integer", num: n}`. -/
def intV (n : Int) : Value := .mk "integer" [] n [] []

/-- Go literal `Value{typ: "bulk", bulk: b}`. -/
def bulkV (b : List Nat) : Value := .mk "bulk" [] 0 b []

/-- Go literal `Value{typ: "array", array: l}`. -/
def arrV (l : List Value) : Value := .mk "array" [] 0 [] l

/-- Go literal `Value{typ: "null"}`. -/
def nullV : Value := .mk "null" [] 0 [] []

mutual

/-- Model of writer.go `func (v Value) Marshal() []byte`: the operative
encoder.  Note the `bulk` case: an empty bulk string is encoded as the
null bulk `$-1\r\n` (bytes 36 45 49 13 10). -/
def Marshal : Value → List Nat
  | .mk t s n b arr =>
    if t = "string" then 43 :: (s ++ [13, 10])
    else if t = "error" then 45 :: (s ++ [13, 10])
    else if t = "integer" then 58 :: (itoa n ++ [13, 10])
    else if t = "bulk" then
      if b = [] then [36, 45, 49, 13, 10]
      else 36 :: (itoa b.length ++ [13, 10] ++ b ++ [13, 10])
    else if t = "array" then
      42 :: (itoa arr.length ++ [13, 10] ++ marshalItems arr)
    else if t = "null" then [36, 45, 49, 13, 10]
    else []

/-- Concatenated encodings of the elements of an array (the loop in
writer.go's `array` case). -/
def marshalItems : List Value → List Nat
  | [] => []
  | v :: vs => Marshal v ++ marshalItems vs

end

mutual

/-- Modelled from the spec: the canonical encoding table of section 4.C,
one case per variant (the code's single `null` tag plays the role of
`BulkNull`; tags outside the closed set are unspecified and map to `[]`). -/
def specEncode : Value → List Nat
  | .mk t s n b arr =>
    if t = "string" then 43 :: (s ++ [13, 10])
    else if t = "error" then 45 :: (s ++ [13, 10])
    else if t = "integer" then 58 :: (itoa n ++ [13, 10])
    else if t = "bulk" then 36 :: (itoa b.length ++ [13, 10] ++ b ++ [13, 10])
    else if t = "array" then 42 :: (itoa arr.length ++ [13, 10] ++ specEncodeItems arr)
    else if t = "null" then [36, 45, 49, 13, 10]
    else []

/-- Modelled from the spec: concatenation of canonical encodings of array
elements. -/
def specEncodeItems : List Value → List Nat
  | [] => []
  | v :: vs => specEncode v ++ specEncodeItems vs

end

/-- Check that a byte string contains neither CR nor LF. -/
def noCRLF (l : List Nat) : Bool := l.all (fun b => decide (b ≠ 13 ∧ b ≠ 10))

/-- Check that every element of a byte string is a byte. -/
def allBytes (l : List Nat) : Bool := l.all (fun b => decide (b < 256))

mutual

/-- Well-formed values: the closed set of section 3 of the spec, expressed
on the Go struct.  The tag is one of the six known tags, the fields not
used by the tag hold their zero values, simple strings and errors contain
no CR/LF, payloads are byte strings, integers are signed 64-bit, and bulk
and array lengths fit in an int (Go slices and strings guarantee this). -/
def wfB : Value → Bool
  | .mk t s n b arr =>
    if t = "string" ∨ t = "error" then
      noCRLF s && allBytes s && decide (n = 0) && b.isEmpty && arr.isEmpty
    else if t = "integer" then
      s.isEmpty && b.isEmpty && arr.isEmpty &&
        decide (-(2 ^ 63) ≤ n ∧ n ≤ 2 ^ 63 - 1)
    else if t = "bulk" then
      s.isEmpty && decide (n = 0) && allBytes b && arr.isEmpty &&
        decide (b.length < 2 ^ 63)
    else if t = "array" then
      s.isEmpty && decide (n = 0) && b.isEmpty && wfLB arr &&
        decide (arr.length < 2 ^ 63)
    else if t = "null" then
      s.isEmpty && decide (n = 0) && b.isEmpty && arr.isEmpty
    else false

/-- Well-formedness of every element of an array. -/
def wfLB : List Value → Bool
  | [] => true
  | v :: vs => wfB v && wfLB vs

end

mutual

/-- Check that no bulk value anywhere inside `v` has empty contents. -/
def noEmptyBulkB : Value → Bool
  | .mk t _ _ b arr =>
    (if t = "bulk" then !b.isEmpty else true) && noEmptyBulkL arr

/-- List version of `noEmptyBulkB`. -/
def noEmptyBulkL : List Value → Bool
  | [] => true
  | v :: vs => noEmptyBulkB v && noEmptyBulkL vs

end

/-- Errors of the byte-stream readers.  Go returns `error` values for the
`eof`, `badAtoi`, `unknownType` and `unexpectedEof` cases; `goPanic` marks
inputs on which the Go code does not return at all but aborts with a
runtime panic (negative-size `make`, or an out-of-range slice bound), and
`outOfFuel` is an artefact of the fuel-indexed embedding of the recursive
reader (never reached when the fuel exceeds the recursion depth). -/
inductive RErr : Type where
  | eof
  | badAtoi
  | unknownType (b : Nat)
  | unexpectedEof
  | goPanic
  | outOfFuel
deriving DecidableEq, Repr

instance {e a : Type} [DecidableEq e] [DecidableEq a] : DecidableEq (Except e a) :=
  fun x y =>
    match x, y with
    | .error u, .error v =>
      if h : u = v then isTrue (by rw [h]) else isFalse (fun hc => h (by cases hc; rfl))
    | .ok u, .ok v =>
      if h : u = v then isTrue (by rw [h]) else isFalse (fun hc => h (by cases hc; rfl))
    | .error _, .ok _ => isFalse (fun hc => by cases hc)
    | .ok _, .error _ => isFalse (fun hc => by cases hc)

/-- Split a byte stream at its first LF, returning the prefix including the
LF and the remainder (the scan inside `bufio.Reader.ReadString`).  `none`
when the stream holds no LF (Go: accumulated data is returned together with
`io.EOF`, which `readLine` turns into an error return). -/
def splitLine : List Nat → Option (List Nat × List Nat)
  | [] => none
  | b :: rest =>
    if b = 10 then some ([b], rest)
    else match splitLine rest with
         | none => none
         | some (l, r) => some (b :: l, r)

namespace Resp

/-- Model of resp.go (primary decoder) `func (r *Resp) readLine()`:
`ReadString('\n')` followed by `line[:len(line)-2]`.  The code never checks
that the byte before the LF is a CR; and when the LF is the first byte of
the line the slice bound `len(line)-2` is negative and Go panics. -/
def readLine (s : List Nat) : Except RErr (List Nat × List Nat) :=
  match splitLine s with
  | none => .error .eof
  | some (line, rest) =>
    if line.length = 1 then .error .goPanic
    else .ok (line.take (line.length - 2), rest)

/-- Model of resp.go `func (r *Resp) readInteger()`: a line parsed with
`strconv.Atoi`. -/
def readInteger (s : List Nat) : Except RErr (Int × List Nat) :=
  match readLine s with
  | .error e => .error e
  | .ok (line, rest) =>
    match goAtoi line with
    | none => .error .badAtoi
    | some n => .ok (n, rest)

/-- Model of resp.go `readSimpleString`. -/
def readSimpleString (s : List Nat) : Except RErr (Value × List Nat) :=
  match readLine s with
  | .error e => .error e
  | .ok (line, rest) => .ok (strV line, rest)

/-- Model of resp.go `readError`. -/
def readError (s : List Nat) : Except RErr (Value × List Nat) :=
  match readLine s with
  | .error e => .error e
  | .ok (line, rest) => .ok (errV line, rest)

/-- Model of resp.go `readIntegerValue`. -/
def readIntegerValue (s : List Nat) : Except RErr (Value × List Nat) :=
  match readInteger s with
  | .error e => .error e
  | .ok (n, rest) => .ok (intV n, rest)

/-- Trailing-CRLF consumption inside `readBulk`: the Go code calls
`r.readLine()` and discards both the line and the error, but a panic inside
that call still aborts.  On error all remaining bytes have been consumed. -/
def skipLine (s : List Nat) : Except RErr (List Nat) :=
  match splitLine s with
  | none => .ok []
  | some (line, rest) =>
    if line.length = 1 then .error .goPanic
    else .ok rest

/-- Model of resp.go `func (r *Resp) readBulk()`: length line, `-1` mapped
to the null value, `make([]byte, length)` (panics when the length is
negative and not `-1`), `io.ReadFull`, and a discarded trailing `readLine`. -/
def readBulk (s : List Nat) : Except RErr (Value × List Nat) :=
  match readInteger s with
  | .error e => .error e
  | .ok (length, rest) =>
    if length = -1 then .ok (nullV, rest)
    else if length < 0 then .error .goPanic
    else
      let n := length.toNat
      if rest.length < n then .error .unexpectedEof
      else
        match skipLine (rest.drop n) with
        | .error e => .error e
        | .ok rest2 => .ok (bulkV (rest.take n), rest2)

mutual

/-- Model of resp.go (primary decoder) `func (r *Resp) Read()`: dispatch on
the type-marker byte.  The fuel argument only bounds the recursion depth of
nested arrays. -/
def Read : Nat → List Nat → Except RErr (Value × List Nat)
  | 0, _ => .error .outOfFuel
  | _ + 1, [] => .error .eof
  | fuel + 1, b :: r =>
    if b = 43 then readSimpleString r
    else if b = 45 then readError r
    else if b = 58 then readIntegerValue r
    else if b = 42 then readArray fuel r
    else if b = 36 then readBulk r
    else .error (.unknownType b)

/-- Model of resp.go `func (r *Resp) readArray()`: length line, `-1` mapped
to the null value, `make([]Value, length)` (panics when the length is
negative and not `-1`), then `length` recursive `Read` calls. -/
def readArray : Nat → List Nat → Except RErr (Value × List Nat)
  | 0, _ => .error .outOfFuel
  | fuel + 1, s =>
    match readInteger s with
    | .error e => .error e
    | .ok (length, rest) =>
      if length = -1 then .ok (nullV, rest)
      else if length < 0 then .error .goPanic
      else
        match readElems fuel length.toNat rest with
        | .error e => .error e
        | .ok (vs, rest2) => .ok (arrV vs, rest2)

/-- The element loop of `readArray`. -/
def readElems : Nat → Nat → List Nat → Except RErr (List Value × List Nat)
  | 0, _, _ => .error .outOfFuel
  | _ + 1, 0, s => .ok ([], s)
  | fuel + 1, n + 1, s =>
    match Read fuel s with
    | .error e => .error e
    | .ok (v, s1) =>
      match readElems fuel n s1 with
      | .error e => .error e
      | .ok (vs, s2) => .ok (v :: vs, s2)

end

end Resp

namespace Draft

/-- Model of resp.go (draft decoder) `readLine`: bytes are accumulated one
at a time until the next-to-last accumulated byte is CR; the accumulated
line without its last two bytes is returned.  EOF inside the loop is an
error. -/
def readLineAcc (acc : List Nat) : List Nat → Except RErr (List Nat × List Nat)
  | [] => .error .eof
  | b :: rest =>
    let line := acc ++ [b]
    if 2 ≤ line.length ∧ line.getD (line.length - 2) 0 = 13 then
      .ok (line.take (line.length - 2), rest)
    else readLineAcc line rest

/-- Draft `readLine` starting from an empty accumulator. -/
def readLine (s : List Nat) : Except RErr (List Nat × List Nat) := readLineAcc [] s

/-- Model of the draft `readInteger`: a line parsed with
`strconv.ParseInt(string(line), 10, 64)`. -/
def readInteger (s : List Nat) : Except RErr (Int × List Nat) :=
  match readLine s with
  | .error e => .error e
  | .ok (line, rest) =>
    match goAtoi line with
    | none => .error .badAtoi
    | some n => .ok (n, rest)

/-- Model of the draft `readBulk`: `make([]byte, len)` (panics on a
negative length, with no `-1` special case), a single `bufio.Read` whose
byte count and error are ignored (missing input leaves zero bytes in the
buffer), and a discarded trailing `readLine`. -/
def readBulk (s : List Nat) : Except RErr (Value × List Nat) :=
  match readInteger s with
  | .error e => .error e
  | .ok (length, rest) =>
    if length < 0 then .error .goPanic
    else
      let n := length.toNat
      let bulk := rest.take n ++ List.replicate (n - rest.length) 0
      let rest1 := rest.drop n
      let rest2 := match readLine rest1 with
                   | .ok (_, r) => r
                   | .error _ => []
      .ok (bulkV bulk, rest2)

mutual

/-- Model of resp.go (draft decoder) `func (r *Resp) Read()`: only the
array and bulk markers are dispatched; ANY other first byte (including the
simple-string, error and integer markers) is logged and a zero `Value` is
returned together with a nil error. -/
def Read : Nat → List Nat → Except RErr (Value × List Nat)
  | 0, _ => .error .outOfFuel
  | _ + 1, [] => .error .eof
  | fuel + 1, b :: r =>
    if b = 42 then readArray fuel r
    else if b = 36 then readBulk r
    else .ok (.mk "" [] 0 [] [], r)

/-- Model of the draft `readArray`: no `-1` special case —
`make([]Value, length)` panics on every negative length. -/
def readArray : Nat → List Nat → Except RErr (Value × List Nat)
  | 0, _ => .error .outOfFuel
  | fuel + 1, s =>
    match readInteger s with
    | .error e => .error e
    | .ok (length, rest) =>
      if length < 0 then .error .goPanic
      else
        match readElems fuel length.toNat rest with
        | .error e => .error e
        | .ok (vs, rest2) => .ok (arrV vs, rest2)

/-- The element loop of the draft `readArray`. -/
def readElems : Nat → Nat → List Nat → Except RErr (List Value × List Nat)
  | 0, _, _ => .error .outOfFuel
  | _ + 1, 0, s => .ok ([], s)
  | fuel + 1, n + 1, s =>
    match Read fuel s with
    | .error e => .error e
    | .ok (v, s1) =>
      match readElems fuel n s1 with
      | .error e => .error e
      | .ok (vs, s2) => .ok (v :: vs, s2)

end

/-- Model of resp.go (draft) `func (v Value) Marshal()` and its helper
methods `marshalString`, `marshalBulk`, `marshalArray`, `marshalError` and
`marshalNull`.  There is no `integer` case: integers fall through to the
default branch and are encoded as the empty byte string. -/
def Marshal (fuel : Nat) (v : Value) : List Nat :=
  match fuel, v with
  | 0, _ => []
  | fuel + 1, .mk t s _ b arr =>
    if t = "array" then
      42 :: (natChars arr.length ++ [13, 10] ++
        (arr.map (Marshal fuel)).flatten)
    else if t = "bulk" then
      36 :: (natChars b.length ++ [13, 10] ++ b ++ [13, 10])
    else if t = "string" then 43 :: (s ++ [13, 10])
    else if t = "null" then [36, 45, 49, 13, 10]
    else if t = "error" then 45 :: (s ++ [13, 10])
    else []

end Draft

/-- Number of shards: `NewLRUCache` hardcodes 256. -/
def shardCount : Nat := 256

/-- Shard mask: `uint32(shardCount - 1)`. -/
def shardMask : Nat := 255

/-- One `cacheShard`: the recency list `evictionQ` of `(key, value)`
entries (front = most recently used) and the key set of the `items` map.
In Go the map's values are pointers to the list nodes; the node data is
carried by the list, so the map contributes exactly its key set. -/
structure Shard : Type where
  queue : List (List Nat × List Nat)
  mapKeys : List (List Nat)
deriving DecidableEq, Repr

/-- Model of `getShard`'s FNV-1a hash: offset basis 2166136261, per byte
XOR then multiply by 16777619, in `uint32` arithmetic. -/
def fnv32 (key : List Nat) : Nat :=
  key.foldl (fun h b => ((h ^^^ b) * 16777619) % 4294967296) 2166136261

/-- Shard index of a key: `h & c.shardMask`. -/
def getShardIdx (key : List Nat) : Nat := fnv32 key &&& shardMask

/-- Model of the Go struct `LRUCache`: capacity, shard array (indexed by
shard index; untouched indices stay empty) and the statistics counters. -/
structure LRUCache : Type where
  capacity : Nat
  shards : Nat → Shard
  hitCount : Nat
  missCount : Nat
  totalGets : Nat
  totalPuts : Nat
  evictions : Nat

/-- Model of `NewLRUCache`: every shard starts empty, counters at zero. -/
def NewLRUCache (capacity : Nat) : LRUCache :=
  { capacity := capacity
    shards := fun _ => ⟨[], []⟩
    hitCount := 0, missCount := 0, totalGets := 0, totalPuts := 0, evictions := 0 }

/-- First value stored under a key on the recency list. -/
def lookupVal (k : List Nat) : List (List Nat × List Nat) → Option (List Nat)
  | [] => none
  | e :: rest => if e.1 = k then some e.2 else lookupVal k rest

/-- Removal of the first entry with the given key from the recency list
(the effect of `list.MoveToFront` / `list.Remove` on the node that the
`items` map associates with the key). -/
def removeKey (k : List Nat) : List (List Nat × List Nat) → List (List Nat × List Nat)
  | [] => []
  | e :: rest => if e.1 = k then rest else e :: removeKey k rest

/-- Removal of the first occurrence of a key from a key list (the effect
of Go `delete(items, key)` on the map's key set; the map holds each key at
most once). -/
def eraseKeyStr (k : List Nat) : List (List Nat) → List (List Nat)
  | [] => []
  | x :: rest => if x = k then rest else x :: eraseKeyStr k rest

/-- Model of `evictFromShard` restricted to the shard: take the back
element of the recency list; if one exists remove it from the list and
delete its key from the map.  The returned flag reports whether an entry
was evicted (the caller counts it). -/
def evictFromShard (s : Shard) : Shard × Bool :=
  match s.queue.getLast? with
  | none => (s, false)
  | some e => (⟨s.queue.dropLast, eraseKeyStr e.1 s.mapKeys⟩, true)

/-- Model of `func (c *LRUCache) Put(key, value string)`.  Counts the put;
on an existing key moves its node to the front and replaces the value in
place; otherwise pushes a new entry at the front, inserts the key into the
map, and evicts the back entry when the list length exceeds
`capacity / shardCount`. -/
def LRUCache.Put (c : LRUCache) (key value : List Nat) : LRUCache :=
  let c1 := { c with totalPuts := c.totalPuts + 1 }
  let i := getShardIdx key
  let s := c1.shards i
  if key ∈ s.mapKeys then
    let s2 := Shard.mk ((key, value) :: removeKey key s.queue) s.mapKeys
    { c1 with shards := Function.update c1.shards i s2 }
  else
    let s1 : Shard := ⟨(key, value) :: s.queue, key :: s.mapKeys⟩
    if s1.queue.length > c1.capacity / shardCount then
      let p := evictFromShard s1
      { c1 with shards := Function.update c1.shards i p.1,
                evictions := if p.2 then c1.evictions + 1 else c1.evictions }
    else { c1 with shards := Function.update c1.shards i s1 }

/-- Model of `func (c *LRUCache) Get(key string)`.  Counts the get; on a
present key reads the value held by the node, moves the node to the front
and counts a hit; on an absent key counts a miss. -/
def LRUCache.Get (c : LRUCache) (key : List Nat) : Option (List Nat) × LRUCache :=
  let c1 := { c with totalGets := c.totalGets + 1 }
  let i := getShardIdx key
  let s := c1.shards i
  if key ∈ s.mapKeys then
    let v := (lookupVal key s.queue).getD []
    let s2 := Shard.mk ((key, v) :: removeKey key s.queue) s.mapKeys
    (some v,
     { c1 with shards := Function.update c1.shards i s2, hitCount := c1.hitCount + 1 })
  else (none, { c1 with missCount := c1.missCount + 1 })

/-- Side-effect-free view of the cache contents at a key, mirroring which
value a `Get` would return: present when the key is in its shard's map,
with the value read from the key's node. -/
def cacheLookup (c : LRUCache) (key : List Nat) : Option (List Nat) :=
  let s := c.shards (getShardIdx key)
  if key ∈ s.mapKeys then some ((lookupVal key s.queue).getD []) else none

/-- Total number of entries across shards (the `size` field of `Stats`). -/
def LRUCache.size (c : LRUCache) : Nat :=
  (List.range shardCount).foldl (fun a i => a + (c.shards i).mapKeys.length) 0

/-- Two-decimal rendering of the hit rate in percent.  Go computes a
float64 and formats it with `%.2f`; we render the truncated rational
`hits * 10000 / gets`, which differs from Go's float rounding only in the
last decimal.  No claim depends on this string. -/
def hitRateChars (hits gets : Nat) : List Nat :=
  if gets = 0 then bs "0.00"
  else
    let r := hits * 10000 / gets
    natChars (r / 100) ++ [46] ++ natChars (r % 100 / 10) ++ natChars (r % 10)

/-- Model of the `STATS` reply string built by `processCommand` from
`cache.Stats()`. -/
def statsRender (c : LRUCache) : List Nat :=
  bs "Capacity: " ++ natChars c.capacity ++
  bs ", Size: " ++ natChars c.size ++
  bs ", Get Ops: " ++ natChars c.totalGets ++
  bs ", Put Ops: " ++ natChars c.totalPuts ++
  bs ", Hits: " ++ natChars c.hitCount ++
  bs ", Misses: " ++ natChars c.missCount ++
  bs ", Hit Rate: " ++ hitRateChars c.hitCount c.totalGets ++ bs "%" ++
  bs ", Evictions: " ++ natChars c.evictions

/-- Argument extraction used by the dispatcher for command names, keys and
values: the `bulk` field of a bulk value, otherwise the `str` field. -/
def extractS (v : Value) : List Nat := if v.typ = "bulk" then v.bulk else v.str

/-- Error message `fmt.Sprintf("ERR wrong number of arguments for '%s'
command", cmd)` (39 is the ASCII quote). -/
def wrongArgsMsg (cmd : List Nat) : List Nat :=
  bs "ERR wrong number of arguments for " ++ [39] ++ cmd ++ [39] ++ bs " command"

/-- The JSON reply of a successful `PUT`. -/
def putOkJson : List Nat :=
  bs "\x7b\"status\":\"OK\",\"message\":\"Key inserted/updated successfully.\"\x7d"

/-- The JSON reply of a `GET` miss on a key starting with "http". -/
def httpMissJson : List Nat :=
  bs "\x7b\"status\":\"ERROR\",\"message\":\"Key not found.\"\x7d"

/-- Model of resp.go (third part) `func processCommand(value Value) Value`:
the command dispatcher.  The Go function reads and mutates the global
`cache`; the model threads the cache state explicitly and returns the
reply together with the updated cache. -/
def processCommand (value : Value) (c : LRUCache) : Value × LRUCache :=
  if value.typ ≠ "array" then (errV (bs "ERR invalid command format"), c)
  else
    match value.array with
    | [] => (errV (bs "ERR empty command"), c)
    | cmdValue :: _ =>
      if cmdValue.typ = "" ∨ (cmdValue.typ ≠ "bulk" ∧ cmdValue.typ ≠ "string") then
        (errV (bs "ERR invalid command type"), c)
      else
        let cmd := upperBytes (extractS cmdValue)
        if cmd = bs "PING" then
          if value.array.length > 2 then (errV (wrongArgsMsg (bs "PING")), c)
          else if value.array.length = 1 then (strV (bs "PONG"), c)
          else
            match value.array with
            | _ :: arg :: _ =>
              if arg.typ = "bulk" then (bulkV arg.bulk, c) else (strV arg.str, c)
            | _ => (strV (bs "PONG"), c)
        else if cmd = bs "SET" ∨ cmd = bs "PUT" then
          if value.array.length ≠ 3 then (errV (wrongArgsMsg cmd), c)
          else
            match value.array with
            | _ :: a1 :: a2 :: _ =>
              let key := extractS a1
              let val := extractS a2
              if key.length > 256 ∨ val.length > 256 then
                (errV (bs "ERR key or value too long (max 256 chars)"), c)
              else
                let c2 := c.Put key val
                if cmd = bs "PUT" then (bulkV putOkJson, c2)
                else (strV (bs "OK"), c2)
            | _ => (errV (wrongArgsMsg cmd), c)
        else if cmd = bs "GET" then
          if value.array.length ≠ 2 then (errV (wrongArgsMsg (bs "GET")), c)
          else
            match value.array with
            | _ :: a1 :: _ =>
              let key := extractS a1
              let p := c.Get key
              match p.1 with
              | some v => (bulkV v, p.2)
              | none =>
                if cmd = bs "GET" && startsWith (bs "http") key then
                  (bulkV httpMissJson, p.2)
                else (nullV, p.2)
            | _ => (errV (wrongArgsMsg (bs "GET")), c)
        else if cmd = bs "STATS" then (strV (statsRender c), c)
        else (errV (bs "ERR unknown command " ++ [39] ++ cmd ++ [39]), c)

/-- One cache operation of a client-visible history. -/
inductive CacheOp : Type where
  | put (key value : List Nat)
  | get (key : List Nat)

/-- Application of one operation to the cache state. -/
def stepOp (c : LRUCache) : CacheOp → LRUCache
  | .put k v => c.Put k v
  | .get k => (c.Get k).2

/-- Application of a finite operation sequence to the cache state. -/
def runOps (c : LRUCache) (ops : List CacheOp) : LRUCache := ops.foldl stepOp c

mutual

/-- Recursion-depth bound of the primary decoder on the encoding of a
value: enough fuel for `Resp.Read` to never hit `outOfFuel`. -/
def needV : Value → Nat
  | .mk t _ _ _ arr => if t = "array" then 2 + needL arr else 1

/-- Recursion-depth bound for the element loop. -/
def needL : List Value → Nat
  | [] => 1
  | v :: vs => 1 + needV v + needL vs

end

/-- Strengthened per-shard invariant used in the induction: the map's key
set is a permutation of the recency list's key sequence (hence equal as a
set and in size), the list's keys are pairwise distinct, and the list
length is bounded by `capacity / shardCount` (the eviction threshold used
by `Put`). -/
def shardInv (cap : Nat) (s : Shard) : Prop :=
  s.mapKeys.Perm (s.queue.map Prod.fst) ∧ (s.queue.map Prod.fst).Nodup ∧
    s.queue.length ≤ cap / shardCount

/- Theorems start here. -/

theorem natDigitsAux_foldl (fuel : Nat) : ∀ n, n ≤ fuel → ∀ a : Nat,
    List.foldl (fun acc d => acc * 10 + d) a (natDigitsAux fuel n) =
      a * 10 ^ (natDigitsAux fuel n).length + n := by
  induction fuel with
  | zero => intro n hn a; interval_cases n; simp [natDigitsAux]
  | succ f ih =>
    intro n hn a
    by_cases h0 : n = 0
    · subst h0; simp [natDigitsAux]
    · have hdiv : n / 10 ≤ f := by
        have := Nat.div_lt_self (Nat.pos_of_ne_zero h0) (by norm_num : 1 < 10)
        omega
      simp only [natDigitsAux, if_neg h0, List.foldl_append, List.length_append,
        List.foldl_cons, List.foldl_nil, List.length_cons, List.length_nil]
      rw [ih _ hdiv]
      have hm : a * 10 ^ ((natDigitsAux f (n / 10)).length + 1) =
          a * 10 ^ (natDigitsAux f (n / 10)).length * 10 := by ring
      rw [Nat.zero_add, hm]
      set m := a * 10 ^ (natDigitsAux f (n / 10)).length with hmdef
      omega

theorem natDigitsAux_lt (fuel : Nat) : ∀ n, ∀ d ∈ natDigitsAux fuel n, d < 10 := by
  induction fuel with
  | zero => intro n d hd; simp [natDigitsAux] at hd
  | succ f ih =>
    intro n d hd
    by_cases h0 : n = 0
    · subst h0; simp [natDigitsAux] at hd
    · simp only [natDigitsAux, if_neg h0, List.mem_append, List.mem_singleton] at hd
      rcases hd with h | h
      · exact ih _ _ h
      · subst h; exact Nat.mod_lt _ (by norm_num)

theorem natDigitsAux_ne_nil (fuel n : Nat) (h0 : n ≠ 0) (hf : n ≤ fuel) :
    natDigitsAux fuel n ≠ [] := by
  cases fuel with
  | zero => omega
  | succ f => simp [natDigitsAux, if_neg h0]

theorem natChars_mem (m : Nat) : ∀ d ∈ natChars m, 48 ≤ d ∧ d ≤ 57 := by
  intro d hd
  unfold natChars at hd
  by_cases h0 : m = 0
  · rw [if_pos h0] at hd; simp at hd; omega
  · rw [if_neg h0] at hd
    simp only [List.mem_map] at hd
    obtain ⟨x, hx, rfl⟩ := hd
    have := natDigitsAux_lt m m x hx
    omega

theorem natChars_ne_nil (m : Nat) : natChars m ≠ [] := by
  unfold natChars
  by_cases h0 : m = 0
  · rw [if_pos h0]; simp
  · rw [if_neg h0]
    have := natDigitsAux_ne_nil m m h0 (le_refl m)
    simpa using this

theorem parseDigits_natChars (m : Nat) : parseDigits (natChars m) = some m := by
  by_cases h0 : m = 0
  · subst h0; rfl
  · have hall : ((natChars m).all fun d => decide (48 ≤ d ∧ d ≤ 57)) = true := by
      rw [List.all_eq_true]
      intro d hd
      have := natChars_mem m d hd
      simpa using this
    unfold parseDigits
    rw [if_neg (by simpa [List.isEmpty_iff] using natChars_ne_nil m), if_pos hall]
    unfold natChars
    rw [if_neg h0]
    unfold natDigs
    rw [List.foldl_map]
    have hstep : (fun (a : Nat) (x : Nat) => a * 10 + (x + 48 - 48)) =
        fun (a : Nat) (x : Nat) => a * 10 + x := by
      funext a x; omega
    rw [hstep, natDigitsAux_foldl m m (le_refl m) 0]
    simp

theorem itoa_no_lf (n : Int) : (10 : Nat) ∉ itoa n := by
  intro hmem
  unfold itoa at hmem
  by_cases hn : n < 0
  · rw [if_pos hn] at hmem
    rcases List.mem_cons.mp hmem with h | h
    · omega
    · have := natChars_mem _ _ h; omega
  · rw [if_neg hn] at hmem
    have := natChars_mem _ _ hmem; omega

theorem atoiFin_natChars (neg : Bool) (m : Nat)
    (h : int64InRange (atoiSign neg m) = true) :
    atoiFin neg (natChars m) = some (atoiSign neg m) := by
  unfold atoiFin
  rw [parseDigits_natChars]
  show (if int64InRange (atoiSign neg m) then some (atoiSign neg m) else none) =
    some (atoiSign neg m)
  rw [if_pos h]

theorem goAtoi_itoa (n : Int) (h1 : -(2 ^ 63) ≤ n) (h2 : n ≤ 2 ^ 63 - 1) :
    goAtoi (itoa n) = some n := by
  by_cases hn : n < 0
  · have hs : atoiSign true n.natAbs = n := by
      unfold atoiSign; rw [if_pos rfl]; omega
    unfold itoa
    rw [if_pos hn]
    simp only [goAtoi, if_true]
    rw [atoiFin_natChars true n.natAbs (by rw [hs]; unfold int64InRange; simp; omega), hs]
  · obtain ⟨c, rest, hcr⟩ := List.exists_cons_of_ne_nil (natChars_ne_nil n.toNat)
    have hc : 48 ≤ c ∧ c ≤ 57 := natChars_mem n.toNat c (hcr ▸ List.mem_cons_self c rest)
    have hs : atoiSign false n.toNat = n := by
      unfold atoiSign; rw [if_neg (by simp)]; omega
    unfold itoa
    rw [if_neg hn, hcr]
    simp only [goAtoi]
    rw [if_neg (by omega : ¬c = 45), if_neg (by omega : ¬c = 43), ← hcr]
    rw [atoiFin_natChars false n.toNat (by rw [hs]; unfold int64InRange; simp; omega), hs]

theorem splitLine_append (pre rest : List Nat) (h : (10 : Nat) ∉ pre) :
    splitLine (pre ++ 10 :: rest) = some (pre ++ [10], rest) := by
  induction pre with
  | nil => simp [splitLine]
  | cons b t ih =>
    have hb : ¬b = 10 := fun hb => h (by simp [hb])
    have ht : (10 : Nat) ∉ t := fun hm => h (List.mem_cons_of_mem _ hm)
    simp only [List.cons_append, splitLine, if_neg hb, List.append_eq, ih ht]

theorem readLine_ok (l rest : List Nat) (h : (10 : Nat) ∉ l) :
    Resp.readLine (l ++ (13 :: 10 :: rest)) = .ok (l, rest) := by
  have h13 : (10 : Nat) ∉ l ++ [13] := by
    intro hm
    rcases List.mem_append.mp hm with hm | hm
    · exact h hm
    · simp at hm
  have heq : l ++ (13 :: 10 :: rest) = (l ++ [13]) ++ 10 :: rest := by simp
  have hsplit := splitLine_append (l ++ [13]) rest h13
  unfold Resp.readLine
  rw [heq, hsplit]
  have hne : ¬((l ++ [13]) ++ [10]).length = 1 := by simp
  simp only [hne, if_false]
  have hlen : ((l ++ [13]) ++ [10]).length - 2 = l.length := by simp
  rw [hlen, List.append_assoc]
  rw [List.take_left]

theorem readInteger_ok (n : Int) (rest : List Nat)
    (h1 : -(2 ^ 63) ≤ n) (h2 : n ≤ 2 ^ 63 - 1) :
    Resp.readInteger (itoa n ++ (13 :: 10 :: rest)) = .ok (n, rest) := by
  unfold Resp.readInteger
  rw [readLine_ok _ _ (itoa_no_lf n)]
  simp only [goAtoi_itoa n h1 h2]

theorem skipLine_crlf (rest : List Nat) : Resp.skipLine (13 :: 10 :: rest) = .ok rest := by
  unfold Resp.skipLine
  have hsplit : splitLine (13 :: 10 :: rest) = some ([13, 10], rest) := by
    simpa using splitLine_append [13] rest (by simp)
  rw [hsplit]
  simp

theorem needV_pos (v : Value) : 1 ≤ needV v := by
  cases v with
  | mk t s n b arr =>
    unfold needV
    by_cases h : t = "array"
    · rw [if_pos h]; omega
    · rw [if_neg h]

theorem needL_pos (vs : List Value) : 1 ≤ needL vs := by
  cases vs with
  | nil => simp [needL]
  | cons v vs => unfold needL; have := needV_pos v; omega

theorem noCRLF_no_lf (s : List Nat) (h : noCRLF s = true) : (10 : Nat) ∉ s := by
  intro hm
  have := List.all_eq_true.mp h _ hm
  simp at this

theorem roundtrip_all : ∀ fuel : Nat,
    (∀ (v : Value) (rest : List Nat), wfB v = true → noEmptyBulkB v = true →
      needV v ≤ fuel → Resp.Read fuel (Marshal v ++ rest) = .ok (v, rest)) ∧
    (∀ (vs : List Value) (rest : List Nat), wfLB vs = true → noEmptyBulkL vs = true →
      needL vs ≤ fuel → Resp.readElems fuel vs.length (marshalItems vs ++ rest) = .ok (vs, rest)) := by
  intro fuel
  induction fuel using Nat.strong_induction_on with
  | _ fuel ih =>
    constructor
    · intro v rest hwf hne hfuel
      cases v with
      | mk t s n b arr =>
        have hf1 : 1 ≤ fuel := le_trans (needV_pos _) hfuel
        obtain ⟨f, rfl⟩ : ∃ f, fuel = f + 1 := ⟨fuel - 1, by omega⟩
        by_cases hstr : t = "string"
        · subst hstr
          simp [wfB] at hwf
          have hcrlf : noCRLF s = true := by tauto
          have hn : n = 0 := by tauto
          have hb : b = [] := by tauto
          have harr : arr = [] := by tauto
          subst hn hb harr
          have hstream : Marshal (Value.mk "string" s 0 [] []) ++ rest =
              43 :: (s ++ (13 :: 10 :: rest)) := by simp [Marshal]
          rw [hstream]
          rw [show Resp.Read (f + 1) (43 :: (s ++ (13 :: 10 :: rest))) =
            Resp.readSimpleString (s ++ (13 :: 10 :: rest)) from by simp [Resp.Read]]
          unfold Resp.readSimpleString
          rw [readLine_ok s rest (noCRLF_no_lf s hcrlf)]
          rfl
        by_cases herr : t = "error"
        · subst herr
          simp [wfB] at hwf
          have hcrlf : noCRLF s = true := by tauto
          have hn : n = 0 := by tauto
          have hb : b = [] := by tauto
          have harr : arr = [] := by tauto
          subst hn hb harr
          have hstream : Marshal (Value.mk "error" s 0 [] []) ++ rest =
              45 :: (s ++ (13 :: 10 :: rest)) := by simp [Marshal]
          rw [hstream]
          rw [show Resp.Read (f + 1) (45 :: (s ++ (13 :: 10 :: rest))) =
            Resp.readError (s ++ (13 :: 10 :: rest)) from by simp [Resp.Read]]
          unfold Resp.readError
          rw [readLine_ok s rest (noCRLF_no_lf s hcrlf)]
          rfl
        by_cases hint : t = "integer"
        · subst hint
          simp [wfB, hstr, herr] at hwf
          have hs : s = [] := by tauto
          have hb : b = [] := by tauto
          have harr : arr = [] := by tauto
          have hr1 : -(2 ^ 63) ≤ n := by tauto
          have hr2 : n ≤ 2 ^ 63 - 1 := by tauto
          subst hs hb harr
          have hstream : Marshal (Value.mk "integer" [] n [] []) ++ rest =
              58 :: (itoa n ++ (13 :: 10 :: rest)) := by simp [Marshal]
          rw [hstream]
          rw [show Resp.Read (f + 1) (58 :: (itoa n ++ (13 :: 10 :: rest))) =
            Resp.readIntegerValue (itoa n ++ (13 :: 10 :: rest)) from by simp [Resp.Read]]
          unfold Resp.readIntegerValue
          rw [readInteger_ok n rest hr1 hr2]
          rfl
        by_cases hbulk : t = "bulk"
        · subst hbulk
          simp [wfB, hstr, herr, hint] at hwf
          simp [noEmptyBulkB] at hne
          have hs : s = [] := by tauto
          have hn : n = 0 := by tauto
          have harr : arr = [] := by tauto
          have hlen : b.length < 2 ^ 63 := by tauto
          have hbne : ¬b = [] := by
        -- hne after simp gives the nonemptiness
            tauto
          subst hs hn harr
          have hstream : Marshal (Value.mk "bulk" [] 0 b []) ++ rest =
              36 :: (itoa b.length ++ (13 :: 10 :: (b ++ (13 :: 10 :: rest)))) := by
            simp [Marshal, hbne]
          rw [hstream]
          rw [show Resp.Read (f + 1)
              (36 :: (itoa b.length ++ (13 :: 10 :: (b ++ (13 :: 10 :: rest))))) =
            Resp.readBulk (itoa b.length ++ (13 :: 10 :: (b ++ (13 :: 10 :: rest))))
            from by simp [Resp.Read]]
          unfold Resp.readBulk
          rw [readInteger_ok (b.length : Int) _ (by omega) (by omega)]
          have hne1 : ¬((b.length : Int) = -1) := by omega
          have hne2 : ¬((b.length : Int) < 0) := by omega
          have hlt : ¬((b ++ (13 :: 10 :: rest)).length < (b.length : Int).toNat) := by
            simp
          simp only [hne1, hne2, if_false, hlt, Int.toNat_natCast]
          rw [List.drop_left, skipLine_crlf, List.take_left]
          rw [if_neg (by simp only [List.length_append, List.length_cons]; omega)]
          rfl
        by_cases harrt : t = "array"
        · subst harrt
          simp [wfB, hstr, herr, hint, hbulk] at hwf
          simp [noEmptyBulkB] at hne
          have hs : s = [] := by tauto
          have hn : n = 0 := by tauto
          have hb : b = [] := by tauto
          have hwfl : wfLB arr = true := by tauto
          have hlen : arr.length < 2 ^ 63 := by tauto
          have hnel : noEmptyBulkL arr = true := by tauto
          subst hs hn hb
          simp [needV] at hfuel
          obtain ⟨g, rfl⟩ : ∃ g, f = g + 1 := ⟨f - 1, by have := needL_pos arr; omega⟩
          have hstream : Marshal (Value.mk "array" [] 0 [] arr) ++ rest =
              42 :: (itoa arr.length ++ (13 :: 10 :: (marshalItems arr ++ rest))) := by
            simp [Marshal]
          rw [hstream]
          rw [show Resp.Read (g + 1 + 1)
              (42 :: (itoa arr.length ++ (13 :: 10 :: (marshalItems arr ++ rest)))) =
            Resp.readArray (g + 1) (itoa arr.length ++ (13 :: 10 :: (marshalItems arr ++ rest)))
            from by simp [Resp.Read]]
          rw [show Resp.readArray (g + 1)
              (itoa arr.length ++ (13 :: 10 :: (marshalItems arr ++ rest))) =
            (match Resp.readInteger
                (itoa arr.length ++ (13 :: 10 :: (marshalItems arr ++ rest))) with
             | .error e => .error e
             | .ok (length, rest2) =>
               if length = -1 then .ok (nullV, rest2)
               else if length < 0 then .error .goPanic
               else
                 match Resp.readElems g length.toNat rest2 with
                 | .error e => .error e
                 | .ok (vs, rest3) => .ok (arrV vs, rest3)) from rfl]
          rw [readInteger_ok (arr.length : Int) _ (by omega) (by omega)]
          have hne1 : ¬((arr.length : Int) = -1) := by omega
          have hne2 : ¬((arr.length : Int) < 0) := by omega
          simp only [hne1, hne2, if_false, Int.toNat_natCast]
          rw [(ih g (by omega)).2 arr rest hwfl hnel (by omega)]
          rfl
        by_cases hnull : t = "null"
        · subst hnull
          simp [wfB, hstr, herr, hint, hbulk, harrt] at hwf
          have hs : s = [] := by tauto
          have hn : n = 0 := by tauto
          have hb : b = [] := by tauto
          have harr : arr = [] := by tauto
          subst hs hn hb harr
          have hstream : Marshal (Value.mk "null" [] 0 [] []) ++ rest =
              36 :: 45 :: 49 :: 13 :: 10 :: rest := by simp [Marshal]
          rw [hstream]
          rw [show Resp.Read (f + 1) (36 :: 45 :: 49 :: 13 :: 10 :: rest) =
            Resp.readBulk (45 :: 49 :: 13 :: 10 :: rest) from by simp [Resp.Read]]
          unfold Resp.readBulk Resp.readInteger Resp.readLine
          have hsplit : splitLine (45 :: 49 :: 13 :: 10 :: rest) = some ([45, 49, 13, 10], rest) := by
            simpa using splitLine_append [45, 49, 13] rest (by simp)
          rw [hsplit]
          have hga : goAtoi [45, 49] = some (-1) := by decide
          simp [hga, nullV]
        · -- no recognised tag: wfB is false
          simp [wfB, hstr, herr, hint, hbulk, harrt, hnull] at hwf
    · intro vs rest hwf hne hfuel
      cases vs with
      | nil =>
        have hf1 : 1 ≤ fuel := le_trans (needL_pos _) hfuel
        obtain ⟨f, rfl⟩ : ∃ f, fuel = f + 1 := ⟨fuel - 1, by omega⟩
        simp [marshalItems, Resp.readElems]
      | cons v vs2 =>
        simp [needL] at hfuel
        have hv1 := needV_pos v
        have hv2 := needL_pos vs2
        obtain ⟨f, rfl⟩ : ∃ f, fuel = f + 1 := ⟨fuel - 1, by omega⟩
        simp [wfLB] at hwf
        simp [noEmptyBulkL] at hne
        have hstream : marshalItems (v :: vs2) ++ rest =
            Marshal v ++ (marshalItems vs2 ++ rest) := by simp [marshalItems]
        rw [hstream]
        rw [show Resp.readElems (f + 1) (v :: vs2).length
            (Marshal v ++ (marshalItems vs2 ++ rest)) =
          (match Resp.Read f (Marshal v ++ (marshalItems vs2 ++ rest)) with
           | .error e => .error e
           | .ok (w, s1) =>
             match Resp.readElems f vs2.length s1 with
             | .error e => .error e
             | .ok (ws, s2) => .ok (w :: ws, s2)) from rfl]
        rw [(ih f (by omega)).1 v (marshalItems vs2 ++ rest) (by tauto) (by tauto) (by omega)]
        show (match Resp.readElems f vs2.length (marshalItems vs2 ++ rest) with
          | Except.error e => Except.error e
          | Except.ok (ws, s2) => Except.ok (v :: ws, s2)) = Except.ok (v :: vs2, rest)
        rw [(ih f (by omega)).2 vs2 rest (by tauto) (by tauto) (by omega)]

/-- C1 counterexample: for the well-formed value `Bulk("")` the composition
of the operative encoder and the primary decoder does not return the value:
the encoder emits the null bulk `$-1\r\n`, which decodes to the null value,
and the null value differs structurally from `Bulk("")`. -/
theorem c1_empty_bulk_breaks_roundtrip :
    wfB (bulkV []) = true ∧
    Resp.Read 1 (Marshal (bulkV []) ++ []) = .ok (nullV, []) ∧
    nullV ≠ bulkV [] := by
  refine ⟨by decide, by decide, by decide⟩

/-- C1 (amended): for every well-formed value all of whose bulk components
(including those nested inside arrays) are nonempty, decoding the byte
sequence produced by the operative encoder yields exactly the value and
consumes exactly its encoding; `Bulk("")` is excluded because writer.go
encodes it as the null bulk `$-1\r\n`, which decodes to the null value.
The fuel argument only bounds the recursion depth of the embedded reader
and is irrelevant beyond `needV v`. -/
theorem c1_decode_encode_id (v : Value) (rest : List Nat) (fuel : Nat)
    (h1 : wfB v = true) (h2 : noEmptyBulkB v = true) (h3 : needV v ≤ fuel) :
    Resp.Read fuel (Marshal v ++ rest) = .ok (v, rest) :=
  (roundtrip_all fuel).1 v rest h1 h2 h3

/-- C1 witness: the amended round-trip theorem applied to a concrete nested
value covering all five non-null variants plus the null. -/
theorem c1_decode_encode_id_witness :
    wfB (arrV [strV [79, 75], intV (-7), bulkV [104, 105], nullV,
      arrV [errV [69]]]) = true ∧
    noEmptyBulkB (arrV [strV [79, 75], intV (-7), bulkV [104, 105], nullV,
      arrV [errV [69]]]) = true ∧
    needV (arrV [strV [79, 75], intV (-7), bulkV [104, 105], nullV,
      arrV [errV [69]]]) ≤ 20 ∧
    Resp.Read 20 (Marshal (arrV [strV [79, 75], intV (-7), bulkV [104, 105], nullV,
      arrV [errV [69]]]) ++ []) =
      .ok (arrV [strV [79, 75], intV (-7), bulkV [104, 105], nullV,
        arrV [errV [69]]], []) :=
  ⟨by decide, by decide, by decide,
    c1_decode_encode_id _ [] 20 (by decide) (by decide) (by decide)⟩

theorem marshal_spec_all : ∀ k : Nat,
    (∀ v : Value, needV v ≤ k → wfB v = true → noEmptyBulkB v = true →
      Marshal v = specEncode v) ∧
    (∀ vs : List Value, needL vs ≤ k → wfLB vs = true → noEmptyBulkL vs = true →
      marshalItems vs = specEncodeItems vs) := by
  intro k
  induction k using Nat.strong_induction_on with
  | _ k ih =>
    constructor
    · intro v hk hwf hne
      cases v with
      | mk t s n b arr =>
        by_cases harrt : t = "array"
        · subst harrt
          simp [wfB] at hwf
          simp [noEmptyBulkB] at hne
          have hwfl : wfLB arr = true := by tauto
          have hnel : noEmptyBulkL arr = true := by tauto
          simp [needV] at hk
          have hreck : needL arr < k := by omega
          have hrec := (ih (needL arr) hreck).2 arr (le_refl _) hwfl hnel
          simp [Marshal, specEncode, hrec]
        by_cases hbulk : t = "bulk"
        · subst hbulk
          simp [noEmptyBulkB] at hne
          have hbne : ¬b = [] := by tauto
          simp [Marshal, specEncode, hbne]
        by_cases hstr : t = "string"
        · subst hstr; simp [Marshal, specEncode]
        by_cases herr : t = "error"
        · subst herr; simp [Marshal, specEncode]
        by_cases hint : t = "integer"
        · subst hint; simp [Marshal, specEncode]
        by_cases hnull : t = "null"
        · subst hnull; simp [Marshal, specEncode]
        · simp [Marshal, specEncode, harrt, hbulk, hstr, herr, hint, hnull]
    · intro vs hk hwf hne
      cases vs with
      | nil => rfl
      | cons v vs2 =>
        simp [needL] at hk
        have h1 := needV_pos v
        have h2 := needL_pos vs2
        simp [wfLB] at hwf
        simp [noEmptyBulkL] at hne
        have hv := (ih (needV v) (by omega)).1 v (le_refl _) (by tauto) (by tauto)
        have hl := (ih (needL vs2) (by omega)).2 vs2 (le_refl _) (by tauto) (by tauto)
        simp [marshalItems, specEncodeItems, hv, hl]

/-- C4 counterexample: the operative encoder does not emit the canonical
byte sequence of the spec's encoding table for the variant `Bulk("")`: it
emits the null bulk `$-1\r\n` where the table (and the spec's own example)
demands `$0\r\n\r\n`.  The draft encoder in resp.go additionally has no
integer case at all and emits the empty byte string for `Integer(-7)`. -/
theorem c4_encoder_not_canonical :
    Marshal (bulkV []) = bs "$-1\r\n" ∧
    specEncode (bulkV []) = bs "$0\r\n\r\n" ∧
    Marshal (bulkV []) ≠ specEncode (bulkV []) ∧
    Draft.Marshal 1 (intV (-7)) = [] ∧
    Draft.Marshal 1 (intV (-7)) ≠ bs ":-7\r\n" := by
  refine ⟨by decide, by decide, by decide, by decide, by decide⟩

/-- C4 (amended): the operative encoder emits exactly the canonical byte
sequences of the spec's encoding table for every well-formed value whose
bulk components are all nonempty; the four example equalities for
`SimpleString("OK")`, `BulkNull`, `Integer(-7)` and `Array([])` hold, but
`encode(Bulk(""))` yields `$-1\r\n` (the `BulkNull` encoding) instead of
`$0\r\n\r\n`. -/
theorem c4_encoder_canonical_amended :
    (∀ v : Value, wfB v = true → noEmptyBulkB v = true → Marshal v = specEncode v) ∧
    Marshal (strV (bs "OK")) = bs "+OK\r\n" ∧
    Marshal nullV = bs "$-1\r\n" ∧
    Marshal (intV (-7)) = bs ":-7\r\n" ∧
    Marshal (arrV []) = bs "*0\r\n" ∧
    Marshal (bulkV []) = bs "$-1\r\n" :=
  ⟨fun v h1 h2 => (marshal_spec_all (needV v)).1 v (le_refl _) h1 h2,
   by decide, by decide, by decide, by decide, by decide⟩

/-- C4 witness: the amended canonical-encoding theorem applied to a
concrete nested value. -/
theorem c4_encoder_canonical_amended_witness :
    wfB (arrV [strV [79, 75], intV (-7), bulkV [104]]) = true ∧
    noEmptyBulkB (arrV [strV [79, 75], intV (-7), bulkV [104]]) = true ∧
    Marshal (arrV [strV [79, 75], intV (-7), bulkV [104]]) =
      specEncode (arrV [strV [79, 75], intV (-7), bulkV [104]]) :=
  ⟨by decide, by decide,
    c4_encoder_canonical_amended.1 _ (by decide) (by decide)⟩

/-- C5: evaluation of the primary decoder at the failing inputs.  On the
input `$-2\r\n` (a negative bulk length other than `-1`) the Go code
reaches `make([]byte, -2)` and panics instead of returning a
`DecodeError`; on `+\n` (a line whose LF is its first byte) the slice
expression `line[:len(line)-2]` has a negative bound and panics; and the
input `+ab\n`, whose line is not terminated by CRLF, is silently accepted
as `SimpleString("a")` because `readLine` never checks the byte before the
LF.  A non-numeric bulk length does surface as an error, as the claim
states. -/
theorem c5_read_panics_on_malformed :
    Resp.Read 1 (bs "$-2\r\n") = .error .goPanic ∧
    Resp.Read 1 (bs "+\n") = .error .goPanic ∧
    Resp.Read 1 (bs "+ab\n") = .ok (strV [97], []) ∧
    Resp.Read 1 (bs "$abc\r\n") = .error .badAtoi := by
  refine ⟨by decide, by decide, by decide, by decide⟩

/-- C6 counterexample: the draft decoder's `Read` (resp.go, second part),
given the stream starting with the byte `x` (120), which is none of the
five type markers, prints a log line and returns the zero `Value` with a
nil error — it does not fail with an `UnknownType` error. -/
theorem c6_draft_read_returns_value_on_unknown_type :
    Draft.Read 1 [120] = .ok (Value.mk "" [] 0 [] [], []) := by decide

/-- C6 (amended): for every input stream whose first byte is none of
`+` `-` `:` `$` `*`, the primary decoder's `Read` (resp.go, first part)
fails with an `UnknownType` error carrying that byte; the draft decoder
(resp.go, second part) instead returns the zero `Value` with no error. -/
theorem c6_unknown_type_errors (b : Nat) (s : List Nat) (fuel : Nat)
    (h1 : b ≠ 43) (h2 : b ≠ 45) (h3 : b ≠ 58) (h4 : b ≠ 42) (h5 : b ≠ 36) :
    Resp.Read (fuel + 1) (b :: s) = .error (.unknownType b) := by
  simp [Resp.Read, h1, h2, h3, h4, h5]

/-- C6 witness: the amended theorem applied to the byte `x` (120). -/
theorem c6_unknown_type_errors_witness :
    (120 : Nat) ≠ 43 ∧ (120 : Nat) ≠ 45 ∧ (120 : Nat) ≠ 58 ∧ (120 : Nat) ≠ 42 ∧
    (120 : Nat) ≠ 36 ∧
    Resp.Read 1 [120, 7] = .error (.unknownType 120) :=
  ⟨by decide, by decide, by decide, by decide, by decide,
    c6_unknown_type_errors 120 [7] 0 (by decide) (by decide) (by decide) (by decide)
      (by decide)⟩

theorem eraseKeyStr_sublist (k : List Nat) (l : List (List Nat)) :
    (eraseKeyStr k l).Sublist l := by
  induction l with
  | nil => simp [eraseKeyStr]
  | cons x rest ih =>
    by_cases hx : x = k
    · simp [eraseKeyStr, hx]
    · simp only [eraseKeyStr, if_neg hx]
      exact ih.cons₂ x

theorem eraseKeyStr_perm (k : List Nat) {l1 l2 : List (List Nat)} (h : l1.Perm l2) :
    (eraseKeyStr k l1).Perm (eraseKeyStr k l2) := by
  induction h with
  | nil => simp [eraseKeyStr]
  | cons x hp ih =>
    by_cases hx : x = k
    · simpa [eraseKeyStr, hx] using hp
    · simpa [eraseKeyStr, hx] using ih.cons x
  | swap x y l =>
    by_cases hy : y = k
    · by_cases hx : x = k
      · subst hy hx
        simp [eraseKeyStr]
      · simp [eraseKeyStr, hy, hx]
    · by_cases hx : x = k
      · simp [eraseKeyStr, hy, hx]
      · simp only [eraseKeyStr, if_neg hx, if_neg hy]
        exact List.Perm.swap x y _
  | trans h1 h2 ih1 ih2 => exact ih1.trans ih2

theorem perm_cons_eraseKeyStr (k : List Nat) (l : List (List Nat)) (h : k ∈ l) :
    l.Perm (k :: eraseKeyStr k l) := by
  induction l with
  | nil => simp at h
  | cons x rest ih =>
    by_cases hx : x = k
    · subst hx
      simp [eraseKeyStr]
    · have hk : k ∈ rest := by
        rcases List.mem_cons.mp h with h1 | h1
        · exact absurd h1.symm hx
        · exact h1
      simp only [eraseKeyStr, if_neg hx]
      exact ((ih hk).cons x).trans (List.Perm.swap k x _)

theorem eraseKeyStr_append_notmem (x : List Nat) (l : List (List Nat)) (h : x ∉ l) :
    eraseKeyStr x (l ++ [x]) = l := by
  induction l with
  | nil => simp [eraseKeyStr]
  | cons y rest ih =>
    have hyx : ¬y = x := fun hc => h (by simp [hc])
    simp only [List.cons_append, eraseKeyStr, if_neg hyx, List.append_eq]
    rw [ih (fun hc => h (List.mem_cons_of_mem _ hc))]

theorem removeKey_map_fst (k : List Nat) (q : List (List Nat × List Nat)) :
    (removeKey k q).map Prod.fst = eraseKeyStr k (q.map Prod.fst) := by
  induction q with
  | nil => rfl
  | cons e rest ih =>
    by_cases he : e.1 = k
    · simp [removeKey, he, eraseKeyStr]
    · simp [removeKey, he, eraseKeyStr, ih]

theorem length_removeKey_of_mem (k : List Nat) (q : List (List Nat × List Nat))
    (h : k ∈ q.map Prod.fst) : (removeKey k q).length + 1 = q.length := by
  induction q with
  | nil => simp at h
  | cons e rest ih =>
    by_cases he : e.1 = k
    · simp [removeKey, he]
    · have : k ∈ rest.map Prod.fst := by
        rcases List.mem_map.mp h with ⟨x, hx, hfx⟩
        rcases List.mem_cons.mp hx with rfl | hx2
        · exact absurd hfx he
        · exact List.mem_map.mpr ⟨x, hx2, hfx⟩
      simp [removeKey, he, ih this]

theorem lookupVal_removeKey_ne (k k2 : List Nat) (q : List (List Nat × List Nat))
    (h : k2 ≠ k) : lookupVal k2 (removeKey k q) = lookupVal k2 q := by
  induction q with
  | nil => rfl
  | cons e rest ih =>
    by_cases he : e.1 = k
    · rw [show removeKey k (e :: rest) = rest from by simp [removeKey, he]]
      rw [show lookupVal k2 (e :: rest) = lookupVal k2 rest from by
        simp [lookupVal, show ¬e.1 = k2 from by rw [he]; exact fun hc => h hc.symm]]
    · rw [show removeKey k (e :: rest) = e :: removeKey k rest from by
        simp [removeKey, he]]
      by_cases he2 : e.1 = k2
      · simp [lookupVal, he2]
      · simp [lookupVal, he2, ih]

theorem shardInv_promote (cap : Nat) (s : Shard) (k v : List Nat)
    (hinv : shardInv cap s) (hk : k ∈ s.mapKeys) :
    shardInv cap (Shard.mk ((k, v) :: removeKey k s.queue) s.mapKeys) := by
  obtain ⟨hperm, hnodup, hlen⟩ := hinv
  have hmem : k ∈ s.queue.map Prod.fst := hperm.mem_iff.mp hk
  have hmap : ((k, v) :: removeKey k s.queue).map Prod.fst =
      k :: eraseKeyStr k (s.queue.map Prod.fst) := by
    simp [removeKey_map_fst]
  have hp2 : (s.queue.map Prod.fst).Perm (k :: eraseKeyStr k (s.queue.map Prod.fst)) :=
    perm_cons_eraseKeyStr k _ hmem
  refine ⟨?_, ?_, ?_⟩
  · rw [hmap]
    exact hperm.trans hp2
  · rw [hmap]
    exact hp2.nodup_iff.mp hnodup
  · have := length_removeKey_of_mem k s.queue hmem
    simp only [List.length_cons]
    omega

theorem shardInv_insert (cap : Nat) (s : Shard) (k v : List Nat)
    (hinv : shardInv cap s) (hk : k ∉ s.mapKeys)
    (hlen : s.queue.length + 1 ≤ cap / shardCount) :
    shardInv cap (Shard.mk ((k, v) :: s.queue) (k :: s.mapKeys)) := by
  obtain ⟨hperm, hnodup, _⟩ := hinv
  have hkq : k ∉ s.queue.map Prod.fst := fun hc => hk (hperm.mem_iff.mpr hc)
  have hmap : ((k, v) :: s.queue).map Prod.fst = k :: s.queue.map Prod.fst := by simp
  refine ⟨?_, ?_, ?_⟩
  · rw [hmap]
    exact hperm.cons k
  · rw [hmap]
    exact List.nodup_cons.mpr ⟨hkq, hnodup⟩
  · simpa using hlen

theorem shardInv_insert_evict (cap : Nat) (s : Shard) (k v : List Nat)
    (hinv : shardInv cap s) (hk : k ∉ s.mapKeys) :
    shardInv cap
      (Shard.mk (((k, v) :: s.queue).dropLast)
        (eraseKeyStr (((k, v) :: s.queue).getLast (by simp)).1 (k :: s.mapKeys))) := by
  obtain ⟨hperm, hnodup, hlen⟩ := hinv
  have hkq : k ∉ s.queue.map Prod.fst := fun hc => hk (hperm.mem_iff.mpr hc)
  set q1 : List (List Nat × List Nat) := (k, v) :: s.queue with hq1
  set e := q1.getLast (by simp [hq1]) with he
  have hsplit : q1.dropLast ++ [e] = q1 := List.dropLast_append_getLast _
  have hmapfst : q1.map Prod.fst = k :: s.queue.map Prod.fst := by simp [hq1]
  have hnodup1 : (q1.map Prod.fst).Nodup := by
    rw [hmapfst]
    exact List.nodup_cons.mpr ⟨hkq, hnodup⟩
  have hmapsplit : q1.dropLast.map Prod.fst ++ [e.1] = q1.map Prod.fst := by
    conv_rhs => rw [← hsplit]
    simp
  have hlast_notin : e.1 ∉ q1.dropLast.map Prod.fst := by
    intro hc
    have hh := hmapsplit ▸ hnodup1
    rcases List.nodup_append.mp hh with ⟨_, _, hdisj⟩
    exact hdisj hc (by simp)
  have herase : eraseKeyStr e.1 (q1.map Prod.fst) = q1.dropLast.map Prod.fst := by
    rw [← hmapsplit, eraseKeyStr_append_notmem _ _ hlast_notin]
  have hperm1 : (k :: s.mapKeys).Perm (q1.map Prod.fst) := by
    rw [hmapfst]
    exact hperm.cons k
  refine ⟨?_, ?_, ?_⟩
  · have hp := eraseKeyStr_perm e.1 hperm1
    rw [herase] at hp
    exact hp
  · rw [← herase]
    exact ((eraseKeyStr_sublist e.1 _).nodup hnodup1)
  · have hlendrop : q1.dropLast.length + 1 = q1.length := by
      conv_rhs => rw [← hsplit]
      simp
    have hq1len : q1.length = s.queue.length + 1 := by simp [hq1]
    show q1.dropLast.length ≤ cap / shardCount
    omega

theorem Put_mem_eq (c : LRUCache) (k v : List Nat)
    (h : k ∈ (c.shards (getShardIdx k)).mapKeys) :
    c.Put k v = LRUCache.mk c.capacity
      (Function.update c.shards (getShardIdx k)
        (Shard.mk ((k, v) :: removeKey k (c.shards (getShardIdx k)).queue)
          (c.shards (getShardIdx k)).mapKeys))
      c.hitCount c.missCount c.totalGets (c.totalPuts + 1) c.evictions := by
  unfold LRUCache.Put
  rw [if_pos h]

theorem Put_new_small_eq (c : LRUCache) (k v : List Nat)
    (h : k ∉ (c.shards (getShardIdx k)).mapKeys)
    (hlen : ¬((c.shards (getShardIdx k)).queue.length + 1 > c.capacity / shardCount)) :
    c.Put k v = LRUCache.mk c.capacity
      (Function.update c.shards (getShardIdx k)
        (Shard.mk ((k, v) :: (c.shards (getShardIdx k)).queue)
          (k :: (c.shards (getShardIdx k)).mapKeys)))
      c.hitCount c.missCount c.totalGets (c.totalPuts + 1) c.evictions := by
  unfold LRUCache.Put
  rw [if_neg h]
  rw [if_neg (by simpa using hlen)]

theorem Put_new_evict_eq (c : LRUCache) (k v : List Nat)
    (h : k ∉ (c.shards (getShardIdx k)).mapKeys)
    (hlen : (c.shards (getShardIdx k)).queue.length + 1 > c.capacity / shardCount) :
    c.Put k v = LRUCache.mk c.capacity
      (Function.update c.shards (getShardIdx k)
        (Shard.mk (((k, v) :: (c.shards (getShardIdx k)).queue).dropLast)
          (eraseKeyStr
            (((k, v) :: (c.shards (getShardIdx k)).queue).getLast (by simp)).1
            (k :: (c.shards (getShardIdx k)).mapKeys))))
      c.hitCount c.missCount c.totalGets (c.totalPuts + 1) (c.evictions + 1) := by
  unfold LRUCache.Put
  rw [if_neg h]
  rw [if_pos (by simpa using hlen)]
  unfold evictFromShard
  rw [List.getLast?_eq_getLast ((k, v) :: (c.shards (getShardIdx k)).queue) (by simp)]
  rfl

theorem Get_mem_eq (c : LRUCache) (k : List Nat)
    (h : k ∈ (c.shards (getShardIdx k)).mapKeys) :
    c.Get k = (some ((lookupVal k (c.shards (getShardIdx k)).queue).getD []),
      LRUCache.mk c.capacity
        (Function.update c.shards (getShardIdx k)
          (Shard.mk ((k, (lookupVal k (c.shards (getShardIdx k)).queue).getD []) ::
              removeKey k (c.shards (getShardIdx k)).queue)
            (c.shards (getShardIdx k)).mapKeys))
        (c.hitCount + 1) c.missCount (c.totalGets + 1) c.totalPuts c.evictions) := by
  unfold LRUCache.Get
  rw [if_pos h]

theorem Get_miss_eq (c : LRUCache) (k : List Nat)
    (h : k ∉ (c.shards (getShardIdx k)).mapKeys) :
    c.Get k = (none,
      LRUCache.mk c.capacity c.shards c.hitCount (c.missCount + 1) (c.totalGets + 1)
        c.totalPuts c.evictions) := by
  unfold LRUCache.Get
  rw [if_neg h]

theorem shardInv_init (cap : Nat) : ∀ i, shardInv cap ((NewLRUCache cap).shards i) := by
  intro i
  exact ⟨List.Perm.refl _, List.nodup_nil, Nat.zero_le _⟩

theorem Put_capacity (c : LRUCache) (k v : List Nat) :
    (c.Put k v).capacity = c.capacity := by
  by_cases hmem : k ∈ (c.shards (getShardIdx k)).mapKeys
  · rw [Put_mem_eq c k v hmem]
  · by_cases hlen : (c.shards (getShardIdx k)).queue.length + 1 > c.capacity / shardCount
    · rw [Put_new_evict_eq c k v hmem hlen]
    · rw [Put_new_small_eq c k v hmem hlen]

theorem Get_capacity (c : LRUCache) (k : List Nat) :
    (c.Get k).2.capacity = c.capacity := by
  by_cases hmem : k ∈ (c.shards (getShardIdx k)).mapKeys
  · rw [Get_mem_eq c k hmem]
  · rw [Get_miss_eq c k hmem]

theorem shardInv_Put (c : LRUCache) (k v : List Nat)
    (h : ∀ i, shardInv c.capacity (c.shards i)) :
    ∀ i, shardInv c.capacity ((c.Put k v).shards i) := by
  intro i
  by_cases hmem : k ∈ (c.shards (getShardIdx k)).mapKeys
  · rw [Put_mem_eq c k v hmem]
    show shardInv c.capacity
      (Function.update c.shards (getShardIdx k)
        (Shard.mk ((k, v) :: removeKey k (c.shards (getShardIdx k)).queue)
          (c.shards (getShardIdx k)).mapKeys) i)
    by_cases hi : i = getShardIdx k
    · subst hi
      rw [Function.update_same]
      exact shardInv_promote _ _ _ _ (h _) hmem
    · rw [Function.update_noteq hi]
      exact h i
  · by_cases hlen : (c.shards (getShardIdx k)).queue.length + 1 > c.capacity / shardCount
    · rw [Put_new_evict_eq c k v hmem hlen]
      show shardInv c.capacity
        (Function.update c.shards (getShardIdx k)
          (Shard.mk (((k, v) :: (c.shards (getShardIdx k)).queue).dropLast)
            (eraseKeyStr
              (((k, v) :: (c.shards (getShardIdx k)).queue).getLast (by simp)).1
              (k :: (c.shards (getShardIdx k)).mapKeys))) i)
      by_cases hi : i = getShardIdx k
      · subst hi
        rw [Function.update_same]
        exact shardInv_insert_evict _ _ _ _ (h _) hmem
      · rw [Function.update_noteq hi]
        exact h i
    · rw [Put_new_small_eq c k v hmem hlen]
      show shardInv c.capacity
        (Function.update c.shards (getShardIdx k)
          (Shard.mk ((k, v) :: (c.shards (getShardIdx k)).queue)
            (k :: (c.shards (getShardIdx k)).mapKeys)) i)
      by_cases hi : i = getShardIdx k
      · subst hi
        rw [Function.update_same]
        exact shardInv_insert _ _ _ _ (h _) hmem (by omega)
      · rw [Function.update_noteq hi]
        exact h i

theorem shardInv_Get (c : LRUCache) (k : List Nat)
    (h : ∀ i, shardInv c.capacity (c.shards i)) :
    ∀ i, shardInv c.capacity ((c.Get k).2.shards i) := by
  intro i
  by_cases hmem : k ∈ (c.shards (getShardIdx k)).mapKeys
  · rw [Get_mem_eq c k hmem]
    show shardInv c.capacity
      (Function.update c.shards (getShardIdx k)
        (Shard.mk ((k, (lookupVal k (c.shards (getShardIdx k)).queue).getD []) ::
            removeKey k (c.shards (getShardIdx k)).queue)
          (c.shards (getShardIdx k)).mapKeys) i)
    by_cases hi : i = getShardIdx k
    · subst hi
      rw [Function.update_same]
      exact shardInv_promote _ _ _ _ (h _) hmem
    · rw [Function.update_noteq hi]
      exact h i
  · rw [Get_miss_eq c k hmem]
    exact h i

theorem stepOp_capacity (c : LRUCache) (op : CacheOp) :
    (stepOp c op).capacity = c.capacity := by
  cases op with
  | put k v => exact Put_capacity c k v
  | get k => exact Get_capacity c k

theorem shardInv_stepOp (c : LRUCache) (op : CacheOp)
    (h : ∀ i, shardInv c.capacity (c.shards i)) :
    ∀ i, shardInv c.capacity ((stepOp c op).shards i) := by
  cases op with
  | put k v => exact shardInv_Put c k v h
  | get k => exact shardInv_Get c k h

theorem shardInv_runOps_aux (ops : List CacheOp) : ∀ c : LRUCache,
    (∀ i, shardInv c.capacity (c.shards i)) →
    (runOps c ops).capacity = c.capacity ∧
    ∀ i, shardInv c.capacity ((runOps c ops).shards i) := by
  induction ops with
  | nil => exact fun c h => ⟨rfl, h⟩
  | cons op rest ih =>
    intro c h
    have hcap := stepOp_capacity c op
    have hstep := shardInv_stepOp c op h
    have hrec := ih (stepOp c op) (by rw [hcap]; exact hstep)
    rw [show runOps c (op :: rest) = runOps (stepOp c op) rest from rfl]
    rw [hcap] at hrec
    exact hrec

/-- C2: starting from a fresh cache, after every finite sequence of puts
and gets, every shard satisfies: the key set of its map equals the key set
of its recency list, its map size equals its list length, and its list
length never exceeds `max 1 (capacity / shardCount)`.  (The code's actual
eviction threshold is `capacity / shardCount` with no lower bound of one,
so the claimed bound holds a fortiori.) -/
theorem c2_shard_invariants (cap : Nat) (ops : List CacheOp) (i : Nat) :
    (∀ k, k ∈ ((runOps (NewLRUCache cap) ops).shards i).mapKeys ↔
      k ∈ ((runOps (NewLRUCache cap) ops).shards i).queue.map Prod.fst) ∧
    ((runOps (NewLRUCache cap) ops).shards i).mapKeys.length =
      ((runOps (NewLRUCache cap) ops).shards i).queue.length ∧
    ((runOps (NewLRUCache cap) ops).shards i).queue.length ≤
      max 1 (cap / shardCount) := by
  obtain ⟨-, hinv⟩ := shardInv_runOps_aux ops (NewLRUCache cap) (shardInv_init cap)
  obtain ⟨hperm, hnodup, hlen⟩ := hinv i
  refine ⟨fun k => hperm.mem_iff, ?_, le_trans hlen (le_max_right 1 _)⟩
  have := hperm.length_eq
  simpa using this

theorem Put_gets_hits_misses (c : LRUCache) (k v : List Nat) :
    (c.Put k v).totalGets = c.totalGets ∧ (c.Put k v).hitCount = c.hitCount ∧
    (c.Put k v).missCount = c.missCount := by
  by_cases hmem : k ∈ (c.shards (getShardIdx k)).mapKeys
  · rw [Put_mem_eq c k v hmem]
    exact ⟨rfl, rfl, rfl⟩
  · by_cases hlen : (c.shards (getShardIdx k)).queue.length + 1 > c.capacity / shardCount
    · rw [Put_new_evict_eq c k v hmem hlen]
      exact ⟨rfl, rfl, rfl⟩
    · rw [Put_new_small_eq c k v hmem hlen]
      exact ⟨rfl, rfl, rfl⟩

theorem Get_counters (c : LRUCache) (k : List Nat) :
    (c.Get k).2.totalGets = c.totalGets + 1 ∧
    (c.Get k).2.hitCount =
      (if k ∈ (c.shards (getShardIdx k)).mapKeys then c.hitCount + 1 else c.hitCount) ∧
    (c.Get k).2.missCount =
      (if k ∈ (c.shards (getShardIdx k)).mapKeys then c.missCount else c.missCount + 1) := by
  by_cases hmem : k ∈ (c.shards (getShardIdx k)).mapKeys
  · rw [Get_mem_eq c k hmem, if_pos hmem, if_pos hmem]
    exact ⟨rfl, rfl, rfl⟩
  · rw [Get_miss_eq c k hmem, if_neg hmem, if_neg hmem]
    exact ⟨rfl, rfl, rfl⟩

theorem counters_runOps_aux (ops : List CacheOp) : ∀ c : LRUCache,
    c.totalGets = c.hitCount + c.missCount →
    (runOps c ops).totalGets = (runOps c ops).hitCount + (runOps c ops).missCount := by
  induction ops with
  | nil => exact fun c h => h
  | cons op rest ih =>
    intro c h
    rw [show runOps c (op :: rest) = runOps (stepOp c op) rest from rfl]
    refine ih (stepOp c op) ?_
    cases op with
    | put k v =>
      obtain ⟨h1, h2, h3⟩ := Put_gets_hits_misses c k v
      show (c.Put k v).totalGets = (c.Put k v).hitCount + (c.Put k v).missCount
      rw [h1, h2, h3]
      exact h
    | get k =>
      obtain ⟨h1, h2, h3⟩ := Get_counters c k
      show (c.Get k).2.totalGets = (c.Get k).2.hitCount + (c.Get k).2.missCount
      rw [h1, h2, h3]
      by_cases hmem : k ∈ (c.shards (getShardIdx k)).mapKeys
      · rw [if_pos hmem, if_pos hmem]
        omega
      · rw [if_neg hmem, if_neg hmem]
        omega

/-- C7: every `Get` increments the gets counter by one and exactly one of
the hits (present key) or misses (absent key) counters; `Put` (the only
other mutating cache operation, eviction included) leaves all three
unchanged; consequently, starting from a fresh cache, after any finite
operation sequence the quiescent state satisfies
`gets = hits + misses`. -/
theorem c7_get_counters_and_quiescent (c : LRUCache) (k v : List Nat) (cap : Nat)
    (ops : List CacheOp) :
    (c.Get k).2.totalGets = c.totalGets + 1 ∧
    (c.Get k).2.hitCount =
      (if k ∈ (c.shards (getShardIdx k)).mapKeys then c.hitCount + 1 else c.hitCount) ∧
    (c.Get k).2.missCount =
      (if k ∈ (c.shards (getShardIdx k)).mapKeys then c.missCount else c.missCount + 1) ∧
    (c.Put k v).totalGets = c.totalGets ∧
    (c.Put k v).hitCount = c.hitCount ∧
    (c.Put k v).missCount = c.missCount ∧
    (runOps (NewLRUCache cap) ops).totalGets =
      (runOps (NewLRUCache cap) ops).hitCount +
        (runOps (NewLRUCache cap) ops).missCount := by
  obtain ⟨g1, g2, g3⟩ := Get_counters c k
  obtain ⟨p1, p2, p3⟩ := Put_gets_hits_misses c k v
  exact ⟨g1, g2, g3, p1, p2, p3, counters_runOps_aux ops (NewLRUCache cap) rfl⟩

/-- C10: on a cache state reachable from a fresh cache, `Put(k, v)` with
`k` already present in its shard's map promotes the entry to the front of
the recency list with its value replaced by `v`, and leaves the shard's
map (hence its size), the recency-list length, every other key's stored
value, all other shards, and the evictions counter unchanged — no
eviction occurs on an update. -/
theorem c10_put_existing_frame (cap : Nat) (ops : List CacheOp) (k v : List Nat)
    (c : LRUCache) (hc : c = runOps (NewLRUCache cap) ops)
    (hmem : k ∈ (c.shards (getShardIdx k)).mapKeys) :
    ((c.Put k v).shards (getShardIdx k)).queue.head? = some (k, v) ∧
    lookupVal k ((c.Put k v).shards (getShardIdx k)).queue = some v ∧
    ((c.Put k v).shards (getShardIdx k)).mapKeys = (c.shards (getShardIdx k)).mapKeys ∧
    ((c.Put k v).shards (getShardIdx k)).queue.length =
      (c.shards (getShardIdx k)).queue.length ∧
    (∀ k2, k2 ≠ k → lookupVal k2 ((c.Put k v).shards (getShardIdx k)).queue =
      lookupVal k2 (c.shards (getShardIdx k)).queue) ∧
    (∀ j, j ≠ getShardIdx k → (c.Put k v).shards j = c.shards j) ∧
    (c.Put k v).evictions = c.evictions := by
  have hinv : ∀ i, shardInv cap (c.shards i) := by
    rw [hc]
    exact (shardInv_runOps_aux ops (NewLRUCache cap) (shardInv_init cap)).2
  have hkq : k ∈ (c.shards (getShardIdx k)).queue.map Prod.fst :=
    (hinv (getShardIdx k)).1.mem_iff.mp hmem
  have hs2 : (c.Put k v).shards (getShardIdx k) =
      Shard.mk ((k, v) :: removeKey k (c.shards (getShardIdx k)).queue)
        ((c.shards (getShardIdx k)).mapKeys) := by
    rw [Put_mem_eq c k v hmem]
    exact Function.update_same _ _ _
  have hsj : ∀ j, j ≠ getShardIdx k → (c.Put k v).shards j = c.shards j := by
    intro j hj
    rw [Put_mem_eq c k v hmem]
    exact Function.update_noteq hj _ _
  have hev : (c.Put k v).evictions = c.evictions := by
    rw [Put_mem_eq c k v hmem]
  rw [hs2]
  refine ⟨rfl, by simp [lookupVal], rfl, ?_, ?_, hsj, hev⟩
  · show ((k, v) :: removeKey k (c.shards (getShardIdx k)).queue).length =
      (c.shards (getShardIdx k)).queue.length
    have := length_removeKey_of_mem k (c.shards (getShardIdx k)).queue hkq
    simp only [List.length_cons]
    omega
  · intro k2 hk2
    show lookupVal k2 ((k, v) :: removeKey k (c.shards (getShardIdx k)).queue) =
      lookupVal k2 (c.shards (getShardIdx k)).queue
    rw [show lookupVal k2 ((k, v) :: removeKey k (c.shards (getShardIdx k)).queue) =
        lookupVal k2 (removeKey k (c.shards (getShardIdx k)).queue) from by
      simp [lookupVal, show ¬k = k2 from fun hcc => hk2 hcc.symm]]
    exact lookupVal_removeKey_ne k k2 _ hk2

/-- C10 witness: the frame theorem applied after a single put of the key. -/
theorem c10_put_existing_frame_witness :
    bs "a" ∈ ((runOps (NewLRUCache 1000000) [CacheOp.put (bs "a") (bs "x")]).shards
      (getShardIdx (bs "a"))).mapKeys ∧
    (((runOps (NewLRUCache 1000000) [CacheOp.put (bs "a") (bs "x")]).Put (bs "a")
        (bs "y")).shards (getShardIdx (bs "a"))).queue.head? = some (bs "a", bs "y") :=
  ⟨by decide,
    (c10_put_existing_frame 1000000 [CacheOp.put (bs "a") (bs "x")] (bs "a") (bs "y")
      _ rfl (by decide)).1⟩

theorem Get_fst_eq_cacheLookup (c : LRUCache) (k : List Nat) :
    (c.Get k).1 = cacheLookup c k := by
  by_cases hmem : k ∈ (c.shards (getShardIdx k)).mapKeys
  · rw [Get_mem_eq c k hmem]
    unfold cacheLookup
    rw [if_pos hmem]
  · rw [Get_miss_eq c k hmem]
    unfold cacheLookup
    rw [if_neg hmem]

theorem processCommand_get_red (c : LRUCache) (kv : Value) (k : List Nat)
    (hk : kv = bulkV k ∨ kv = strV k) :
    processCommand (arrV [bulkV (bs "GET"), kv]) c =
      (match (c.Get k).1 with
       | some v => (bulkV v, (c.Get k).2)
       | none =>
         if startsWith (bs "http") k then (bulkV httpMissJson, (c.Get k).2)
         else (nullV, (c.Get k).2)) := by
  have hup : upperBytes (bs "GET") = bs "GET" := by decide
  have hne1 : ¬(bs "GET" = bs "PING") := by decide
  have hne2 : ¬(bs "GET" = bs "SET") := by decide
  have hne3 : ¬(bs "GET" = bs "PUT") := by decide
  rcases hk with rfl | rfl
  · have he1 : extractS (Value.mk "bulk" [] 0 (bs "GET") []) = bs "GET" := by decide
    have he2 : extractS (Value.mk "bulk" [] 0 k []) = k := rfl
    simp [processCommand, arrV, bulkV, Value.typ, Value.array, he1, he2, hup,
      hne1, hne2, hne3]
  · have he1 : extractS (Value.mk "bulk" [] 0 (bs "GET") []) = bs "GET" := by decide
    have he2 : extractS (Value.mk "string" k 0 [] []) = k := rfl
    simp [processCommand, arrV, bulkV, strV, Value.typ, Value.array, he1, he2, hup,
      hne1, hne2, hne3]

/-- C3 counterexample: a dispatched `GET` for the absent key "http" does
not reply `BulkNull`: the dispatcher special-cases misses on keys starting
with "http" and replies a JSON-shaped bulk string instead. -/
theorem c3_get_http_miss_not_null :
    (processCommand (arrV [bulkV (bs "GET"), bulkV (bs "http")])
      (NewLRUCache 1000000)).1 = bulkV httpMissJson ∧
    (processCommand (arrV [bulkV (bs "GET"), bulkV (bs "http")])
      (NewLRUCache 1000000)).1 ≠ nullV := by
  exact ⟨by decide, by decide⟩

/-- C3 (amended): for a dispatched `GET` of arity 2 whose argument is a
bulk or simple-string key `k`: on a hit with stored value `v` the reply is
`Bulk(v)`; on a miss the reply is `BulkNull` — except that for absent keys
beginning with "http" the reply is a JSON error bulk string. -/
theorem c3_get_dispatch (c : LRUCache) (kv : Value) (k : List Nat)
    (hk : kv = bulkV k ∨ kv = strV k) :
    (∀ v, cacheLookup c k = some v →
      (processCommand (arrV [bulkV (bs "GET"), kv]) c).1 = bulkV v) ∧
    (cacheLookup c k = none → startsWith (bs "http") k = false →
      (processCommand (arrV [bulkV (bs "GET"), kv]) c).1 = nullV) ∧
    (cacheLookup c k = none → startsWith (bs "http") k = true →
      (processCommand (arrV [bulkV (bs "GET"), kv]) c).1 = bulkV httpMissJson) := by
  rw [processCommand_get_red c kv k hk]
  refine ⟨?_, ?_, ?_⟩
  · intro v hv
    rw [Get_fst_eq_cacheLookup, hv]
  · intro hv hhttp
    rw [Get_fst_eq_cacheLookup, hv]
    show (if startsWith (bs "http") k then (bulkV httpMissJson, (c.Get k).2)
      else (nullV, (c.Get k).2)).1 = nullV
    rw [hhttp]
    rfl
  · intro hv hhttp
    rw [Get_fst_eq_cacheLookup, hv]
    show (if startsWith (bs "http") k then (bulkV httpMissJson, (c.Get k).2)
      else (nullV, (c.Get k).2)).1 = bulkV httpMissJson
    rw [hhttp]
    rfl

/-- C3 witness: the dispatch theorem applied to a hit on a stored key and
to a plain miss. -/
theorem c3_get_dispatch_witness :
    (bulkV (bs "k") = bulkV (bs "k") ∨ bulkV (bs "k") = strV (bs "k")) ∧
    cacheLookup ((NewLRUCache 1000000).Put (bs "k") (bs "v")) (bs "k") =
      some (bs "v") ∧
    (processCommand (arrV [bulkV (bs "GET"), bulkV (bs "k")])
      ((NewLRUCache 1000000).Put (bs "k") (bs "v"))).1 = bulkV (bs "v") :=
  ⟨Or.inl rfl, by decide,
    (c3_get_dispatch ((NewLRUCache 1000000).Put (bs "k") (bs "v"))
      (bulkV (bs "k")) (bs "k") (Or.inl rfl)).1 (bs "v") (by decide)⟩

/-- C9 counterexample: with the empty string stored under the key "http",
a `GET http` hit marshals to `$-1\r\n`, but a miss for the same key (fresh
cache) marshals to a JSON bulk reply, not to the same bytes — so a hit on
an empty value is not wire-identical to a miss for keys starting with
"http". -/
theorem c9_http_miss_differs :
    Marshal ((processCommand (arrV [bulkV (bs "GET"), bulkV (bs "http")])
      ((NewLRUCache 1000000).Put (bs "http") [])).1) = bs "$-1\r\n" ∧
    Marshal ((processCommand (arrV [bulkV (bs "GET"), bulkV (bs "http")])
      (NewLRUCache 1000000)).1) ≠ bs "$-1\r\n" := by
  exact ⟨by decide, by decide⟩

/-- C9 (amended): encoding `Bulk("")` yields the bytes `$-1\r\n`,
identical to the encoding of the null value; consequently a `GET` hit
whose stored value is the empty string produces the same wire reply as a
miss for every key not beginning with "http" (for such keys the miss
reply is a JSON error bulk instead). -/
theorem c9_empty_bulk_wire_identity (c : LRUCache) (k : List Nat) :
    Marshal (bulkV []) = bs "$-1\r\n" ∧
    Marshal (bulkV []) = Marshal nullV ∧
    (cacheLookup c k = some [] →
      (processCommand (arrV [bulkV (bs "GET"), bulkV k]) c).1 = bulkV [] ∧
      Marshal ((processCommand (arrV [bulkV (bs "GET"), bulkV k]) c).1) =
        bs "$-1\r\n") ∧
    (cacheLookup c k = none → startsWith (bs "http") k = false →
      Marshal ((processCommand (arrV [bulkV (bs "GET"), bulkV k]) c).1) =
        bs "$-1\r\n") := by
  refine ⟨by decide, by decide, ?_, ?_⟩
  · intro hv
    rw [processCommand_get_red c (bulkV k) k (Or.inl rfl), Get_fst_eq_cacheLookup, hv]
    refine ⟨rfl, ?_⟩
    show Marshal (bulkV []) = bs "$-1\r\n"
    decide
  · intro hv hhttp
    rw [processCommand_get_red c (bulkV k) k (Or.inl rfl), Get_fst_eq_cacheLookup, hv]
    show Marshal ((if startsWith (bs "http") k then (bulkV httpMissJson, (c.Get k).2)
      else (nullV, (c.Get k).2)).1) = bs "$-1\r\n"
    rw [hhttp]
    show Marshal nullV = bs "$-1\r\n"
    decide

/-- C9 witness: a hit on an empty stored value replies the bulk value with
empty contents, whose wire form is the theorem's `$-1\r\n`. -/
theorem c9_empty_bulk_wire_identity_witness :
    cacheLookup ((NewLRUCache 1000000).Put (bs "k") []) (bs "k") = some [] ∧
    (processCommand (arrV [bulkV (bs "GET"), bulkV (bs "k")])
      ((NewLRUCache 1000000).Put (bs "k") [])).1 = bulkV [] :=
  ⟨by decide,
    ((c9_empty_bulk_wire_identity ((NewLRUCache 1000000).Put (bs "k") [])
      (bs "k")).2.2.1 (by decide)).1⟩

/-- C8: for a dispatched `SET` or `PUT` command (array head whose
uppercased name is SET or PUT) with arity other than 3, the dispatcher
replies the wrong-number-of-arguments error naming the command; with arity
3 but a key or value longer than 256 bytes it replies the too-long error;
in both cases the returned cache state is exactly the input state — no
`Put` is performed. -/
theorem c8_set_put_validation (c : LRUCache) (name : Value) (args : List Value)
    (cmd : List Nat)
    (htyp : name.typ = "bulk" ∨ name.typ = "string")
    (hcmd : upperBytes (extractS name) = cmd)
    (hsp : cmd = bs "SET" ∨ cmd = bs "PUT") :
    (args.length ≠ 2 →
      processCommand (arrV (name :: args)) c = (errV (wrongArgsMsg cmd), c)) ∧
    (∀ a1 a2 rest2, args = a1 :: a2 :: rest2 → args.length = 2 →
      (extractS a1).length > 256 ∨ (extractS a2).length > 256 →
      processCommand (arrV (name :: args)) c =
        (errV (bs "ERR key or value too long (max 256 chars)"), c)) := by
  have hping : ¬(cmd = bs "PING") := by
    rcases hsp with rfl | rfl
    · decide
    · decide
  cases name with
  | mk nt ns nn nb na =>
    simp only [Value.typ] at htyp
    have hnotbad : ¬(nt = "" ∨ (nt ≠ "bulk" ∧ nt ≠ "string")) := by
      rcases htyp with h | h
      · simp [h]
      · simp [h]
    constructor
    · intro hlen
      simp [processCommand, arrV, Value.typ, Value.array, hnotbad, hcmd, hping, hsp,
        hlen]
    · intro a1 a2 rest2 hargs hlen2 hbig
      subst hargs
      have hr2 : rest2 = [] := by
        simp only [List.length_cons] at hlen2
        exact List.eq_nil_of_length_eq_zero (by omega)
      subst hr2
      simp [processCommand, arrV, Value.typ, Value.array, hnotbad, hcmd, hping, hsp,
        hbig]

/-- C8 witness: a `SET` with arity 2 is rejected with the wrong-arity
message and leaves the cache untouched. -/
theorem c8_set_put_validation_witness :
    (Value.typ (bulkV (bs "SET")) = "bulk" ∨ Value.typ (bulkV (bs "SET")) = "string") ∧
    upperBytes (extractS (bulkV (bs "SET"))) = bs "SET" ∧
    (bs "SET" = bs "SET" ∨ bs "SET" = bs "PUT") ∧
    ([bulkV (bs "k")] : List Value).length ≠ 2 ∧
    processCommand (arrV [bulkV (bs "SET"), bulkV (bs "k")]) (NewLRUCache 1000000) =
      (errV (wrongArgsMsg (bs "SET")), NewLRUCache 1000000) :=
  ⟨Or.inl rfl, by decide, Or.inl rfl, by decide,
    (c8_set_put_validation (NewLRUCache 1000000) (bulkV (bs "SET")) [bulkV (bs "k")]
      (bs "SET") (Or.inl rfl) (by decide) (Or.inl rfl)).1 (by decide)⟩
